import Mathlib

/-!
Verification of `src/main.py` of tinyLM: a character-level language-model
training driver that splits a corpus, builds a training/validation dataset,
runs a hyperparameter sweep, and reports the best run.

The dynamic `CfgNode` configuration trees of the Python code are embedded as
Lean structures; Python floats appearing as hyperparameters are embedded as
exact rationals; fallible operations (dictionary lookup, indexing) return
`Option`. Components of the repository that live outside `src/` (the
`CharDataset` vocabulary construction from `dataset.py`) are modelled from the
specification and marked as such in their doc comments.
-/

namespace TinyLM

/-- System-level configuration subtree (`config.system` in `main.py`). -/
structure SystemConfig where
  seed : Nat
  work_dir : String
deriving DecidableEq, Repr

/-- Model configuration subtree (`config.model`). `CfgNode` is a dynamic
attribute bag, so fields that the code may or may not have assigned at a given
point (`vocab_size`, `block_size` injected in `train`; `learning_rate`,
`hidden_dim`, `n_embd` assigned by the sweep loop) are `Option`-valued,
`none` meaning "not yet assigned". -/
structure ModelConfig where
  model_type : String
  vocab_size : Option Nat := none
  block_size : Option Nat := none
  learning_rate : Option ℚ := none
  hidden_dim : Option Nat := none
  n_embd : Option Nat := none
deriving DecidableEq, Repr

/-- Trainer configuration subtree (`config.trainer`), fields exactly as
assigned in `get_ff_config` / `get_gpt_config`. -/
structure TrainerConfig where
  device : String
  num_workers : Nat
  max_iters : Nat
  batch_size : Nat
  learning_rate : ℚ
  betas : ℚ × ℚ
  weight_decay : ℚ
  grad_norm_clip : ℚ
  patience : Nat
  validation_interval : Nat
  min_relative_improvement : ℚ
deriving DecidableEq, Repr

/-- The whole configuration tree built in `get_ff_config` / `get_gpt_config`.
The top-level `vocab_size` / `block_size` fields are the dynamic attributes
that the gpt branch of `train` sets directly on `config` (lines 112-113). -/
structure Config where
  system : SystemConfig
  model : ModelConfig
  trainer : TrainerConfig
  vocab_size : Option Nat := none
  block_size : Option Nat := none
deriving DecidableEq, Repr

/-- Modelled from the spec: `Feedforward.get_default_config` lives in
`model.py`, which is not under `src/`. Per the spec the feedforward variant is
the default model, and `vocab_size` / `block_size` are injected from the
Dataset only later (inside `train`), so the default model configuration
carries the variant tag with the size fields unset. -/
def Feedforward.get_default_config : ModelConfig :=
  { model_type := "feedforward" }

/-- Modelled from the spec: `GPT.get_default_config` lives in `gpt.py`, which
is not under `src/`. `get_gpt_config` immediately overwrites `model_type`
with `"gpt-nano"`, and the size fields are injected later in `train`. -/
def GPT.get_default_config : ModelConfig :=
  { model_type := "gpt" }

/-- `get_ff_config` from `main.py` (lines 37-64), with the Python float
hyperparameters embedded as exact rationals. -/
def get_ff_config : Config where
  system := { seed := 3407, work_dir := "./out/chargpt" }
  model := Feedforward.get_default_config
  trainer :=
    { device := "auto"
      num_workers := 4
      max_iters := 50000
      batch_size := 64
      learning_rate := 5e-4
      betas := (0.9, 0.95)
      weight_decay := 0.1
      grad_norm_clip := 1.0
      patience := 5
      validation_interval := 2000
      min_relative_improvement := 0.05 }

/-- `get_gpt_config` from `main.py` (lines 66-95). -/
def get_gpt_config : Config where
  system := { seed := 3407, work_dir := "./out/chargpt" }
  model := { GPT.get_default_config with model_type := "gpt-nano" }
  trainer :=
    { device := "auto"
      num_workers := 4
      max_iters := 50000
      batch_size := 64
      learning_rate := 5e-4
      betas := (0.9, 0.95)
      weight_decay := 0.1
      grad_norm_clip := 1.0
      patience := 5
      validation_interval := 1000
      min_relative_improvement := 0.05 }

/-! ### `pick_best` (main.py lines 13-18)

A model is abstract here: calling `model(inputs, targets, loss_fn)` and taking
component `[1]` yields a scalar score, so `pick_best` is embedded over an
arbitrary model type together with the scoring function induced by the call.
`torch.argmax` on a 1-d tensor returns the index of the first occurrence of
the maximal value; indexing an empty list raises, hence the `Option` result. -/

/-- Index of the first occurrence of the maximal element, as `torch.argmax`
computes it on a 1-d tensor (paired with that maximal value); `none` on an
empty list (where `torch.argmax` raises). -/
def torch_argmax : List ℚ → Option (Nat × ℚ)
  | [] => none
  | x :: xs =>
    match torch_argmax xs with
    | none => some (0, x)
    | some (j, m) => if m > x then some (j + 1, m) else some (0, x)

/-- `pick_best(models, data, loss_fn)`: score every model by
`model(inputs, targets, loss_fn)[1]` and return the model at the argmax of
the scores. `forward m inputs targets loss_fn` is the scalar in component 1
of the model call. -/
def pick_best {M I T L : Type} (forward : M → I → T → L → ℚ)
    (models : List M) (data : I × T) (loss_fn : L) : Option M :=
  let scores := models.map (fun model => forward model data.1 data.2 loss_fn)
  match torch_argmax scores with
  | none => none
  | some (j, _) => models.get? j

/-! ### `get_val_dataset` (main.py lines 22-27) -/

/-- `get_val_dataset(data_config, val_data)`: sliding windows over the
validation indices. `range(len(val_data) - block_size)` is empty whenever
`len(val_data) <= block_size` (Python `range` of a non-positive bound),
which coincides with truncated `Nat` subtraction. The slice
`val_data[idx : idx + block_size]` is `take block_size (drop idx)`. -/
def get_val_dataset (block_size : Nat) (val_data : List Nat) :
    List (List Nat) × List (List Nat) :=
  ((List.range (val_data.length - block_size)).map
      (fun idx => (val_data.drop idx).take block_size),
   (List.range (val_data.length - block_size)).map
      (fun idx => (val_data.drop (idx + 1)).take block_size))

/-! ### `CharDataset` (dataset.py — not under `src/`, modelled from the spec) -/

/-- Modelled from the spec: `CharDataset` from `dataset.py` is not under
`src/`. Per the spec (§6) the Dataset holds a context length and the raw text
of its split: "the Dataset derives its vocabulary as the sorted set of
distinct characters appearing in the training split ... and assigns each a
stable integer index". -/
structure CharDataset where
  block_size : Nat
  data : List Char
deriving DecidableEq, Repr

/-- Modelled from the spec: the vocabulary is the sorted set of distinct
characters of the split's text. -/
def CharDataset.vocab (d : CharDataset) : List Char :=
  d.data.dedup.insertionSort (fun a b => a ≤ b)

/-- Modelled from the spec: `stoi` assigns each vocabulary character its
stable integer index; looking up a character outside the vocabulary raises a
`KeyError` in Python, embedded as `none`. -/
def CharDataset.stoi (d : CharDataset) (c : Char) : Option Nat :=
  d.vocab.findIdx? (fun x => x = c)

/-- Modelled from the spec: `itos`, the inverse lookup from a vocabulary
index back to its character (used by the generation callback). -/
def CharDataset.itos (d : CharDataset) (j : Nat) : Option Char :=
  d.vocab[j]?

/-- Modelled from the spec: the Dataset "exposes vocabulary size and context
length" (`get_vocab_size`). -/
def CharDataset.get_vocab_size (d : CharDataset) : Nat :=
  d.vocab.length

/-- Modelled from the spec: the Dataset "exposes vocabulary size and context
length" (`get_block_size`). -/
def CharDataset.get_block_size (d : CharDataset) : Nat :=
  d.block_size

/-! ### `train` (main.py lines 101-149)

Only the configuration-injection and model-construction portion of `train`
is code of `src/main.py` operating on pure data; the `Trainer` itself lives
in `trainer.py` (not under `src/`), so a run's training outcome
(validation loss, perplexity) is kept abstract by the sweep embedding below.
A constructed model is represented by the configuration value its constructor
received: `Feedforward(config.model)` receives the model subtree, while
`GPT(config)` (line 114) receives the whole configuration object. -/

/-- The object a model constructor was called with: `Feedforward(config.model)`
or `GPT(config)`. -/
inductive ModelObj where
  | feedforward (cfg : ModelConfig)
  | gpt (cfg : Config)
deriving DecidableEq, Repr

/-- The vocabulary size carried by the configuration a model was constructed
from (for the gpt branch, the top-level field set on line 112). -/
def ModelObj.cfgVocabSize : ModelObj → Option Nat
  | .feedforward cfg => cfg.vocab_size
  | .gpt cfg => cfg.vocab_size

/-- The block size carried by the configuration a model was constructed from
(for the gpt branch, the top-level field set on line 113). -/
def ModelObj.cfgBlockSize : ModelObj → Option Nat
  | .feedforward cfg => cfg.block_size
  | .gpt cfg => cfg.block_size

/-- The model-construction portion of `train` (lines 106-114): inject
`vocab_size` and `block_size` from the training dataset into `config.model`,
then construct the model selected by `config.model.model_type`. When neither
branch matches, Python's `model` stays unbound and the subsequent use raises
(`none`). Returns the updated configuration and the constructed model. -/
def train (config : Config) (train_dataset : CharDataset) :
    Config × Option ModelObj :=
  let config :=
    { config with
        model :=
          { config.model with
              vocab_size := some train_dataset.get_vocab_size
              block_size := some train_dataset.get_block_size } }
  if config.model.model_type = "feedforward" then
    (config, some (.feedforward config.model))
  else if config.model.model_type.startsWith "gpt" then
    let config :=
      { config with
          vocab_size := some train_dataset.get_vocab_size
          block_size := some train_dataset.get_block_size }
    (config, some (.gpt config))
  else
    (config, none)

/-! ### The `__main__` block (main.py lines 151-213) -/

/-- `int(len(data) * ratio)` with `ratio = .7` (lines 168-169), embedded in
exact arithmetic: the floor of `0.7 * n`. -/
def split_idx (n : Nat) : Nat := 7 * n / 10

/-- The training dataset of the main block (line 170): a `CharDataset` over
the first `split_idx` characters of the corpus, with the block size 10 from
`data_config` (line 161). -/
def main_train_dataset (data : List Char) : CharDataset :=
  { block_size := 10, data := data.take (split_idx data.length) }

/-- The validation split of the corpus: the suffix after the first `ratio`
fraction (`data[split_idx:]`). -/
def main_val_split (data : List Char) : List Char :=
  data.drop (split_idx data.length)

/-- A Python list comprehension over a fallible element mapping, processed
left to right: the first element on which the mapping raises (`none`) aborts
the whole comprehension. -/
def comprehension {α β : Type} (f : α → Option β) : List α → Option (List β)
  | [] => some []
  | c :: cs =>
    match f c with
    | none => none
    | some y =>
      match comprehension f cs with
      | none => none
      | some ys => some (y :: ys)

/-- Line 173: `val_data = [train_dataset.stoi[x] for x in data[split_idx:]]`.
A `KeyError` on a validation character missing from the training vocabulary
aborts the comprehension before any run starts, embedded as `none`. -/
def main_val_data (data : List Char) : Option (List Nat) :=
  comprehension (main_train_dataset data).stoi (main_val_split data)

/-- A sweep hyperparameter combination `(learning_rate, hidden_dim, n_embd)`. -/
abbrev Hyp := ℚ × Nat × Nat

/-- Line 177: the learning-rate axis `[2e-4, 3e-4]`. -/
def learning_rates : List ℚ := [2e-4, 3e-4]

/-- Line 178: the hidden-dimension axis `[200, 300, 400]`. -/
def hidden_dims : List Nat := [200, 300, 400]

/-- Line 179: the embedding-dimension axis `[48, 96]`. -/
def n_embds : List Nat := [48, 96]

/-- Line 180: `itertools.product(learning_rates, hidden_dims, n_embds)`,
which enumerates the Cartesian product with the rightmost axis varying
fastest — lexicographic order over the axes. -/
def hyperparameters_list : List Hyp :=
  learning_rates.flatMap fun lr =>
    hidden_dims.flatMap fun hd =>
      n_embds.map fun ne => (lr, hd, ne)

/-- Lines 191-200 for one combination: pick the profile for the selected
model variant and assign the swept values onto `config.model` (the three
dynamic attribute assignments of lines 198-200). This is the fresh
configuration each run is trained with. -/
def run_config (model_arg : String) (h : Hyp) : Config :=
  let config := if model_arg = "feedforward" then get_ff_config else get_gpt_config
  { config with
      model :=
        { config.model with
            learning_rate := some h.1
            hidden_dim := some h.2.1
            n_embd := some h.2.2 } }

/-- The outcome `(val_loss, val_perplexity)` and trained model of one run, as
returned by `train` (line 202); training happens in `trainer.py`, so the
sweep embedding is parameterized by the map from a combination to its run
result. The model of a run is identified by its run index. -/
structure RunResult where
  hyps : Hyp
  val_loss : ℚ
  val_perplexity : ℚ
deriving DecidableEq, Repr

/-- The sweep's best-run record (lines 184-187): `best_model` is the index of
the retained run, `best_val_loss` starts at `float('inf')`, embedded as
`none` (every finite loss compares below it). -/
structure BestRecord where
  best_model : Option Nat
  best_val_loss : Option ℚ
  best_val_perplexity : Option ℚ
  best_hyps : Option Hyp
deriving DecidableEq, Repr

/-- The initial best-run record: `best_model = None`,
`best_val_loss = best_val_perplexity = float('inf')`, `best_hyps = None`. -/
def bestInit : BestRecord :=
  { best_model := none, best_val_loss := none
    best_val_perplexity := none, best_hyps := none }

/-- `val_loss < best_val_loss` where `best_val_loss` may be `float('inf')`. -/
def ltBest (x : ℚ) : Option ℚ → Bool
  | none => true
  | some b => x < b

/-- The record written by the body of lines 204-207 when the run at index `i`
with result `r` becomes the new best. -/
def bestEntry (i : Nat) (r : RunResult) : BestRecord :=
  { best_model := some i, best_val_loss := some r.val_loss
    best_val_perplexity := some r.val_perplexity, best_hyps := some r.hyps }

/-- The sweep loop (lines 189-207): runs are processed in enumeration order
with index `i`; a run replaces the record exactly when its validation loss is
strictly below the current best. -/
def runSweep : List RunResult → Nat → BestRecord → BestRecord
  | [], _, b => b
  | r :: rs, i, b =>
    runSweep rs (i + 1) (if ltBest r.val_loss b.best_val_loss then bestEntry i r else b)

/-- The whole sweep fold, from the initial record. -/
def sweepFold (rs : List RunResult) : BestRecord :=
  runSweep rs 0 bestInit

/-- The run results of the actual sweep, one per combination of
`hyperparameters_list` in order, with the training outcome per combination
abstract (`outcome h = (val_loss, val_perplexity)` of the run at `h`). -/
def sweepResults (outcome : Hyp → ℚ × ℚ) : List RunResult :=
  hyperparameters_list.map fun h =>
    { hyps := h, val_loss := (outcome h).1, val_perplexity := (outcome h).2 }

/-- The final summary print (line 209): best perplexity and best loss from
the record, but the hyperparameters from the loop variables
`learning_rate, hidden_dim, n_embd`, which after the loop hold the
last-enumerated combination. -/
def final_summary (outcome : Hyp → ℚ × ℚ) : Option ℚ × Option ℚ × Option Hyp :=
  let b := sweepFold (sweepResults outcome)
  (b.best_val_perplexity, b.best_val_loss, hyperparameters_list.getLast?)

/-- The main block up to the sweep (lines 159-207): building `val_data`
fails (raises `KeyError`) before any training run starts when the validation
split contains a character unseen in training; otherwise the sweep runs and
produces the best-run record. -/
def main_program (data : List Char) (outcome : Hyp → ℚ × ℚ) :
    Option BestRecord :=
  match main_val_data data with
  | none => none
  | some _ => some (sweepFold (sweepResults outcome))

/-- A concrete assignment of run outcomes for exercising the sweep: the run
at combination `(lr, hd, ne)` ends with validation loss and perplexity
`hd + ne`. Under it the first-enumerated combination `(2e-4, 200, 48)`
attains the strict minimum loss `248` (the lr = 3e-4 run over the same
widths ties it later and must not displace it). -/
def demo_outcome : Hyp → ℚ × ℚ :=
  fun h => ((h.2.1 + h.2.2 : ℚ), (h.2.1 + h.2.2 : ℚ))

/-- Specification-side recursion computing the earliest run attaining the
minimum validation loss: the head is kept unless the tail's minimum is
strictly smaller (so ties resolve to the earlier run). -/
def firstMin : List RunResult → Option (Nat × RunResult)
  | [] => none
  | r :: rs =>
    match firstMin rs with
    | none => some (0, r)
    | some (j, r') => if r'.val_loss < r.val_loss then some (j + 1, r') else some (0, r)

/-! ## Theorems -/

/-- The sweep loop is the first-minimum recursion: from any start index and
any current record, the final record is the current one unless some run beats
it, in which case it is the entry of the earliest minimal run. -/
lemma runSweep_eq_firstMin (rs : List RunResult) : ∀ (i : Nat) (b : BestRecord),
    runSweep rs i b =
      match firstMin rs with
      | none => b
      | some (j, r) => if ltBest r.val_loss b.best_val_loss then bestEntry (i + j) r else b := by
  induction rs with
  | nil => intro i b; simp [runSweep, firstMin]
  | cons r rs ih =>
    intro i b
    rw [runSweep, ih]
    cases hfm : firstMin rs with
    | none =>
      simp only [firstMin, hfm]
      simp
    | some p =>
      obtain ⟨j, r'⟩ := p
      simp only [firstMin, hfm]
      by_cases hrb : ltBest r.val_loss b.best_val_loss = true
      · by_cases hr' : r'.val_loss < r.val_loss
        · have h1 : ltBest r'.val_loss (bestEntry i r).best_val_loss = true := by
            simp [bestEntry, ltBest, hr']
          have h2 : ltBest r'.val_loss b.best_val_loss = true := by
            cases hbv : b.best_val_loss with
            | none => rfl
            | some bv =>
              have hr : r.val_loss < bv := by simpa [ltBest, hbv] using hrb
              simp only [ltBest, hbv, decide_eq_true_eq]
              linarith
          have hidx : i + 1 + j = i + (j + 1) := by omega
          simp [hrb, hr', h1, h2, hidx]
        · have h1 : ltBest r'.val_loss (bestEntry i r).best_val_loss = false := by
            simp [bestEntry, ltBest, hr']
          simp [hrb, hr', h1]
      · have hbvx : ∃ bv, b.best_val_loss = some bv ∧ ¬ r.val_loss < bv := by
          cases hbv : b.best_val_loss with
          | none => exact (hrb (by simp [ltBest, hbv])).elim
          | some bv => exact ⟨bv, rfl, by simpa [ltBest, hbv] using hrb⟩
        obtain ⟨bv, hb, hnlt⟩ := hbvx
        by_cases hr' : r'.val_loss < r.val_loss
        · have hidx : i + 1 + j = i + (j + 1) := by omega
          simp [hrb, hr', hidx]
        · have h2 : ltBest r'.val_loss b.best_val_loss = false := by
            simp only [ltBest, hb, decide_eq_false_iff_not]
            push_neg at hr' hnlt
            exact not_lt.mpr (le_trans hnlt hr')
          simp [hrb, hr', h2]

/-- `firstMin` returns the earliest index attaining the minimal validation
loss, together with that run. -/
lemma firstMin_spec (rs : List RunResult) (h : rs ≠ []) :
    ∃ (j : Nat) (hj : j < rs.length),
      firstMin rs = some (j, rs[j]) ∧
      (∀ k (hk : k < rs.length), rs[j].val_loss ≤ rs[k].val_loss) ∧
      (∀ k (hk : k < rs.length), k < j → rs[j].val_loss < rs[k].val_loss) := by
  induction rs with
  | nil => exact absurd rfl h
  | cons r rs ih =>
    by_cases hrs : rs = []
    · subst hrs
      refine ⟨0, by simp, by simp [firstMin], ?_, ?_⟩
      · intro k hk
        have hk0 : k = 0 := by simpa using hk
        subst hk0
        simp
      · intro k hk hkj
        omega
    · obtain ⟨j, hj, hfm, hmin, hstrict⟩ := ih hrs
      by_cases hlt : rs[j].val_loss < r.val_loss
      · have hj1 : j + 1 < (r :: rs).length := by simp [List.length_cons]; omega
        refine ⟨j + 1, hj1, ?_, ?_, ?_⟩
        · simp only [firstMin, hfm, hlt, if_true, List.getElem_cons_succ]
        · intro k hk
          cases k with
          | zero => simpa using le_of_lt hlt
          | succ k =>
            have hk' : k < rs.length := by simpa using hk
            simpa using hmin k hk'
        · intro k hk hkj
          cases k with
          | zero => simpa using hlt
          | succ k =>
            have hk' : k < rs.length := by simpa using hk
            simpa using hstrict k hk' (by omega)
      · refine ⟨0, by simp, ?_, ?_, ?_⟩
        · simp only [firstMin, hfm, hlt, if_false, List.getElem_cons_zero]
        · intro k hk
          cases k with
          | zero => simp
          | succ k =>
            have hk' : k < rs.length := by simpa using hk
            have h1 : r.val_loss ≤ rs[j].val_loss := not_lt.mp hlt
            simpa using le_trans h1 (hmin k hk')
        · intro k hk hkj
          omega

/-- C3: the sweep retains exactly one best run, and it is the
earliest-enumerated run attaining the minimum validation loss — a later run
whose loss merely ties the current best does not replace it: the retained
record is the `(model index, validation loss, perplexity, hyperparameters)`
of the first minimal run, whose loss is `≤` every run's loss and strictly
`<` the loss of every earlier run. -/
theorem sweep_retains_first_strict_min (rs : List RunResult) (h : rs ≠ []) :
    ∃ (j : Nat) (hj : j < rs.length),
      sweepFold rs = bestEntry j rs[j] ∧
      (∀ k (hk : k < rs.length), rs[j].val_loss ≤ rs[k].val_loss) ∧
      (∀ k (hk : k < rs.length), k < j → rs[j].val_loss < rs[k].val_loss) := by
  obtain ⟨j, hj, hfm, hmin, hstrict⟩ := firstMin_spec rs h
  refine ⟨j, hj, ?_, hmin, hstrict⟩
  rw [sweepFold, runSweep_eq_firstMin, hfm]
  simp [bestInit, ltBest]

/-- Witness for C3 on a three-run sweep whose minimum loss 1 is attained at
run 1 and tied by run 2: the retained record is run 1's. -/
theorem sweep_retains_first_strict_min_witness :
    ([⟨(1, 1, 1), 2, 5⟩, ⟨(2, 2, 2), 1, 3⟩, ⟨(3, 3, 3), 1, 4⟩] : List RunResult) ≠ [] ∧
    ∃ (j : Nat)
      (hj : j < ([⟨(1, 1, 1), 2, 5⟩, ⟨(2, 2, 2), 1, 3⟩,
        ⟨(3, 3, 3), 1, 4⟩] : List RunResult).length),
      sweepFold [⟨(1, 1, 1), 2, 5⟩, ⟨(2, 2, 2), 1, 3⟩, ⟨(3, 3, 3), 1, 4⟩] =
        bestEntry j (([⟨(1, 1, 1), 2, 5⟩, ⟨(2, 2, 2), 1, 3⟩,
          ⟨(3, 3, 3), 1, 4⟩] : List RunResult)[j]) ∧
      (∀ k (hk : k < ([⟨(1, 1, 1), 2, 5⟩, ⟨(2, 2, 2), 1, 3⟩,
          ⟨(3, 3, 3), 1, 4⟩] : List RunResult).length),
        (([⟨(1, 1, 1), 2, 5⟩, ⟨(2, 2, 2), 1, 3⟩,
          ⟨(3, 3, 3), 1, 4⟩] : List RunResult)[j]).val_loss ≤
          (([⟨(1, 1, 1), 2, 5⟩, ⟨(2, 2, 2), 1, 3⟩,
            ⟨(3, 3, 3), 1, 4⟩] : List RunResult)[k]).val_loss) ∧
      (∀ k (hk : k < ([⟨(1, 1, 1), 2, 5⟩, ⟨(2, 2, 2), 1, 3⟩,
          ⟨(3, 3, 3), 1, 4⟩] : List RunResult).length), k < j →
        (([⟨(1, 1, 1), 2, 5⟩, ⟨(2, 2, 2), 1, 3⟩,
          ⟨(3, 3, 3), 1, 4⟩] : List RunResult)[j]).val_loss <
          (([⟨(1, 1, 1), 2, 5⟩, ⟨(2, 2, 2), 1, 3⟩,
            ⟨(3, 3, 3), 1, 4⟩] : List RunResult)[k]).val_loss) :=
  ⟨by simp,
    sweep_retains_first_strict_min
      [⟨(1, 1, 1), 2, 5⟩, ⟨(2, 2, 2), 1, 3⟩, ⟨(3, 3, 3), 1, 4⟩] (by simp)⟩

/-- C5: for every validation index sequence longer than the block size,
`get_val_dataset` returns exactly `len(val_data) - block_size` windows, each
input and target of length `block_size`, with
`targets[w][i] = val_data[w + i + 1]` for all windows `w` and positions
`i < block_size` (so in particular the last target position is the source
element one step past the input window), and
`target[i] = input[i + 1]` for every position `i < block_size - 1`. -/
theorem get_val_dataset_spec (block_size : Nat) (val_data : List Nat)
    (h : block_size < val_data.length) :
    (get_val_dataset block_size val_data).1.length = val_data.length - block_size ∧
    (get_val_dataset block_size val_data).2.length = val_data.length - block_size ∧
    (∀ w, w < val_data.length - block_size →
      ((get_val_dataset block_size val_data).1[w]?).map List.length = some block_size ∧
      ((get_val_dataset block_size val_data).2[w]?).map List.length = some block_size) ∧
    (∀ w i, w < val_data.length - block_size → i < block_size →
      ((get_val_dataset block_size val_data).2[w]?.bind fun t => t[i]?) =
        val_data[w + i + 1]?) ∧
    (∀ w i, w < val_data.length - block_size → i + 1 < block_size →
      ((get_val_dataset block_size val_data).2[w]?.bind fun t => t[i]?) =
        ((get_val_dataset block_size val_data).1[w]?.bind fun t => t[i + 1]?)) := by
  refine ⟨by simp [get_val_dataset], by simp [get_val_dataset], ?_, ?_, ?_⟩
  · intro w hw
    constructor
    · simp only [get_val_dataset, List.getElem?_map, List.getElem?_range, hw, if_pos,
        Option.map_some', Option.some.injEq, List.length_take, List.length_drop]
      omega
    · simp only [get_val_dataset, List.getElem?_map, List.getElem?_range, hw, if_pos,
        Option.map_some', Option.some.injEq, List.length_take, List.length_drop]
      omega
  · intro w i hw hi
    simp only [get_val_dataset, List.getElem?_map, List.getElem?_range, hw, if_pos,
      Option.map_some', Option.some_bind]
    rw [List.getElem?_take_of_lt hi, List.getElem?_drop]
    congr 1
    omega
  · intro w i hw hi
    simp only [get_val_dataset, List.getElem?_map, List.getElem?_range, hw, if_pos,
      Option.map_some', Option.some_bind]
    rw [List.getElem?_take_of_lt (by omega : i < block_size),
      List.getElem?_take_of_lt hi, List.getElem?_drop, List.getElem?_drop]
    congr 1
    omega

/-- Witness for C5 at `block_size = 2`, `val_data = [5, 6, 7, 8]`. -/
theorem get_val_dataset_spec_witness :
    2 < ([5, 6, 7, 8] : List Nat).length ∧
    ((get_val_dataset 2 [5, 6, 7, 8]).1.length = ([5, 6, 7, 8] : List Nat).length - 2 ∧
      (get_val_dataset 2 [5, 6, 7, 8]).2.length = ([5, 6, 7, 8] : List Nat).length - 2 ∧
      (∀ w, w < ([5, 6, 7, 8] : List Nat).length - 2 →
        ((get_val_dataset 2 [5, 6, 7, 8]).1[w]?).map List.length = some 2 ∧
        ((get_val_dataset 2 [5, 6, 7, 8]).2[w]?).map List.length = some 2) ∧
      (∀ w i, w < ([5, 6, 7, 8] : List Nat).length - 2 → i < 2 →
        ((get_val_dataset 2 [5, 6, 7, 8]).2[w]?.bind fun t => t[i]?) =
          ([5, 6, 7, 8] : List Nat)[w + i + 1]?) ∧
      (∀ w i, w < ([5, 6, 7, 8] : List Nat).length - 2 → i + 1 < 2 →
        ((get_val_dataset 2 [5, 6, 7, 8]).2[w]?.bind fun t => t[i]?) =
          ((get_val_dataset 2 [5, 6, 7, 8]).1[w]?.bind fun t => t[i + 1]?))) :=
  ⟨by decide, get_val_dataset_spec 2 [5, 6, 7, 8] (by decide)⟩

/-- C10: when the validation index sequence is no longer than the block size,
`get_val_dataset` returns a pair of empty lists — `range` of a non-positive
bound is empty — and, being a total function here, raises nothing: the
zero-window condition is not detected or rejected at this boundary. -/
theorem get_val_dataset_no_windows (block_size : Nat) (val_data : List Nat)
    (h : val_data.length ≤ block_size) :
    get_val_dataset block_size val_data = ([], []) := by
  simp [get_val_dataset, Nat.sub_eq_zero_of_le h]

/-- Witness for C10 at `block_size = 3`, `val_data = [4, 5, 6]`. -/
theorem get_val_dataset_no_windows_witness :
    ([4, 5, 6] : List Nat).length ≤ 3 ∧ get_val_dataset 3 [4, 5, 6] = ([], []) :=
  ⟨by decide, get_val_dataset_no_windows 3 [4, 5, 6] (by decide)⟩

/-- C8: the sweep grid is the Cartesian product of the configured axes,
enumerated in lexicographic order (rightmost axis fastest, as
`itertools.product` does) — exactly the 12 combinations below, with
`enumerate` attaching run indices 0 through 11 — and every run's
configuration is the pristine default profile freshly overridden with that
run's combination (not a configuration carried over from a previous run). -/
theorem sweep_grid_lex_product :
    hyperparameters_list =
      [(2e-4, 200, 48), (2e-4, 200, 96), (2e-4, 300, 48), (2e-4, 300, 96),
       (2e-4, 400, 48), (2e-4, 400, 96), (3e-4, 200, 48), (3e-4, 200, 96),
       (3e-4, 300, 48), (3e-4, 300, 96), (3e-4, 400, 48), (3e-4, 400, 96)] ∧
    hyperparameters_list.length = 12 ∧
    hyperparameters_list.enum.map Prod.fst = List.range 12 ∧
    ∀ h : Hyp, run_config "feedforward" h =
      { get_ff_config with
          model :=
            { Feedforward.get_default_config with
                learning_rate := some h.1
                hidden_dim := some h.2.1
                n_embd := some h.2.2 } } :=
  ⟨rfl, rfl, rfl, fun _ => rfl⟩

/-- C2 is refuted by the code: the sweep loop assigns the swept learning rate
to `config.model.learning_rate` (line 198), but the Trainer is constructed
with `config.trainer` (line 118), whose `learning_rate` is the default
profile's 5e-4 for every combination — so the optimizer is built with the
default value, not the swept one. At the first combination `(2e-4, 200, 48)`
the Trainer's configured learning rate 5e-4 differs from the swept 2e-4. -/
theorem run_config_trainer_lr_default :
    (∀ h : Hyp, (run_config "feedforward" h).trainer = get_ff_config.trainer) ∧
    (run_config "feedforward" (2e-4, 200, 48)).trainer.learning_rate = 5e-4 ∧
    (run_config "feedforward" (2e-4, 200, 48)).model.learning_rate = some 2e-4 ∧
    (5e-4 : ℚ) ≠ 2e-4 :=
  ⟨fun _ => rfl, rfl, rfl, by norm_num⟩

/-- C1 is refuted by the code: the final summary line (line 209) prints the
loop variables `learning_rate, hidden_dim, n_embd`, which after the loop hold
the last-enumerated combination `(3e-4, 400, 96)`, not `best_hyps`
(which line 206 computes and nothing ever prints). Under `demo_outcome` the
best run is the first-enumerated combination `(2e-4, 200, 48)` — retained
with its loss 248 and perplexity 248 — yet the summary's hyperparameters are
the last combination's, which differ from the best run's. -/
theorem final_summary_prints_last_combination :
    (sweepFold (sweepResults demo_outcome)).best_model = some 0 ∧
    (sweepFold (sweepResults demo_outcome)).best_hyps = some (2e-4, 200, 48) ∧
    (sweepFold (sweepResults demo_outcome)).best_val_loss = some 248 ∧
    (final_summary demo_outcome).2.2 = some (3e-4, 400, 96) ∧
    (final_summary demo_outcome).2.2 ≠ (sweepFold (sweepResults demo_outcome)).best_hyps := by
  refine ⟨?_, ?_, ?_, ?_, ?_⟩ <;>
    norm_num [final_summary, sweepFold, sweepResults, hyperparameters_list,
      learning_rates, hidden_dims, n_embds, demo_outcome, runSweep, ltBest, bestInit,
      bestEntry]

/-- A successful `findIdx?` returns an index inside the list whose element
satisfies the predicate. -/
lemma findIdx?_some_getElem {α : Type} (p : α → Bool) (l : List α) (j : Nat)
    (h : l.findIdx? p = some j) : ∃ x, l[j]? = some x ∧ p x = true := by
  induction l generalizing j with
  | nil => simp [List.findIdx?] at h
  | cons a l ih =>
    rw [List.findIdx?_cons] at h
    by_cases hp : p a = true
    · rw [if_pos hp] at h
      obtain rfl : 0 = j := Option.some.inj h
      exact ⟨a, by simp, hp⟩
    · rw [if_neg hp, List.findIdx?_succ] at h
      cases hfl : l.findIdx? p with
      | none => rw [hfl] at h; simp at h
      | some j' =>
        rw [hfl] at h
        simp only [Option.map_some', Option.some.injEq] at h
        obtain ⟨x, hx, hpx⟩ := ih j' hfl
        exact ⟨x, by simpa [← h] using hx, hpx⟩

/-- A character is outside the `stoi` mapping exactly when it does not occur
in the dataset's text. -/
lemma stoi_eq_none_iff (d : CharDataset) (c : Char) :
    d.stoi c = none ↔ c ∉ d.data := by
  rw [CharDataset.stoi, List.findIdx?_eq_none_iff]
  constructor
  · intro h hc
    have hv : c ∈ d.vocab := by
      rw [CharDataset.vocab, List.mem_insertionSort, List.mem_dedup]
      exact hc
    have := h c hv
    simp at this
  · intro h x hx
    simp only [decide_eq_false_iff_not]
    intro hxc
    subst hxc
    exact h (by simpa [CharDataset.vocab, List.mem_insertionSort, List.mem_dedup] using hx)

/-- `itos` inverts `stoi`: a character's vocabulary index maps back to it. -/
lemma stoi_some_itos (d : CharDataset) (c : Char) (j : Nat)
    (h : d.stoi c = some j) : d.itos j = some c := by
  obtain ⟨x, hx, hpx⟩ := findIdx?_some_getElem _ _ _ h
  have hxc : x = c := by simpa using hpx
  subst hxc
  simpa [CharDataset.itos] using hx

/-- The comprehension aborts exactly when some element's mapping raises. -/
lemma comprehension_eq_none_iff {α β : Type} (f : α → Option β) (xs : List α) :
    comprehension f xs = none ↔ ∃ c ∈ xs, f c = none := by
  induction xs with
  | nil => simp [comprehension]
  | cons c cs ih =>
    cases hfc : f c with
    | none =>
      simp only [comprehension, hfc]
      constructor
      · intro _
        exact ⟨c, by simp, hfc⟩
      · intro _
        trivial
    | some y =>
      cases hcs : comprehension f cs with
      | none =>
        simp only [comprehension, hfc, hcs]
        constructor
        · intro _
          obtain ⟨x, hx, hfx⟩ := ih.mp hcs
          exact ⟨x, by simp [hx], hfx⟩
        · intro _
          trivial
      | some ys =>
        simp only [comprehension, hfc, hcs]
        constructor
        · intro hcontra
          exact absurd hcontra (by simp)
        · rintro ⟨x, hx, hfx⟩
          rcases List.mem_cons.mp hx with rfl | hx'
          · rw [hfc] at hfx
            exact absurd hfx (by simp)
          · have hnone : comprehension f cs = none := ih.mpr ⟨x, hx', hfx⟩
            rw [hnone] at hcs
            exact absurd hcs (by simp)

/-- A successful comprehension maps every position through `f`. -/
lemma comprehension_some_spec {α β : Type} (f : α → Option β) :
    ∀ (xs : List α) (l : List β), comprehension f xs = some l →
      l.length = xs.length ∧ ∀ i : Nat, (xs[i]?).bind f = l[i]? := by
  intro xs
  induction xs with
  | nil =>
    intro l h
    simp only [comprehension, Option.some.injEq] at h
    subst h
    simp
  | cons c cs ih =>
    intro l h
    cases hfc : f c with
    | none => simp [comprehension, hfc] at h
    | some y =>
      cases hcs : comprehension f cs with
      | none => simp [comprehension, hfc, hcs] at h
      | some ys =>
        simp only [comprehension, hfc, hcs, Option.some.injEq] at h
        subst h
        obtain ⟨hlen, hidx⟩ := ih ys hcs
        refine ⟨by simp [hlen], ?_⟩
        intro i
        cases i with
        | zero => simp [hfc]
        | succ i => simpa using hidx i

/-- When `g` inverts `f` pointwise, a successful comprehension through `f`
decodes back through `g` to the original list. -/
lemma comprehension_inverse {α β : Type} (f : α → Option β) (g : β → Option α)
    (hfg : ∀ a b, f a = some b → g b = some a) :
    ∀ (xs : List α) (l : List β), comprehension f xs = some l →
      comprehension g l = some xs := by
  intro xs
  induction xs with
  | nil =>
    intro l h
    simp only [comprehension, Option.some.injEq] at h
    subst h
    rfl
  | cons c cs ih =>
    intro l h
    cases hfc : f c with
    | none => simp [comprehension, hfc] at h
    | some y =>
      cases hcs : comprehension f cs with
      | none => simp [comprehension, hfc, hcs] at h
      | some ys =>
        simp only [comprehension, hfc, hcs, Option.some.injEq] at h
        subst h
        simp only [comprehension, hfg c y hfc, ih ys hcs]

/-- C6: building `val_data` fails (the comprehension raises `KeyError`)
exactly when the validation split contains a character that does not occur in
the training split; the failure happens before any training run starts (the
program produces no sweep record); and on success every validation character
is mapped through the training dataset's `stoi`. -/
theorem val_vocab_mismatch_fatal (data : List Char) :
    (main_val_data data = none ↔
      ∃ c ∈ main_val_split data, c ∉ (main_train_dataset data).data) ∧
    (main_val_data data = none →
      ∀ outcome, main_program data outcome = none) ∧
    (∀ l, main_val_data data = some l →
      l.length = (main_val_split data).length ∧
      ∀ i : Nat,
        ((main_val_split data)[i]?).bind (main_train_dataset data).stoi = l[i]?) := by
  refine ⟨?_, ?_, ?_⟩
  · rw [main_val_data, comprehension_eq_none_iff]
    constructor
    · rintro ⟨c, hc, hnone⟩
      exact ⟨c, hc, (stoi_eq_none_iff _ c).mp hnone⟩
    · rintro ⟨c, hc, hnotin⟩
      exact ⟨c, hc, (stoi_eq_none_iff _ c).mpr hnotin⟩
  · intro h outcome
    simp [main_program, h]
  · intro l h
    exact comprehension_some_spec _ _ l h

/-- Witness for C6 on the corpus "aab": the split index is 2, the training
split "aa" has vocabulary {a}, and the validation split "b" contains the
unseen character b, so the mapping fails and the program runs no sweep. -/
theorem val_vocab_mismatch_fatal_witness :
    main_val_data ['a', 'a', 'b'] = none ∧
    main_program ['a', 'a', 'b'] (fun _ => (1, 1)) = none := by
  have hmem : 'b' ∈ main_val_split ['a', 'a', 'b'] := by
    simp [main_val_split, split_idx]
  have hnotin : 'b' ∉ (main_train_dataset ['a', 'a', 'b']).data := by
    simp [main_train_dataset, split_idx]
  have hnone : main_val_data ['a', 'a', 'b'] = none :=
    (val_vocab_mismatch_fatal ['a', 'a', 'b']).1.mpr ⟨'b', hmem, hnotin⟩
  exact ⟨hnone, (val_vocab_mismatch_fatal ['a', 'a', 'b']).2.1 hnone (fun _ => (1, 1))⟩

/-- C7: the training dataset is built from exactly the first
`int(len(data) * 0.7)` characters of the corpus, the validation split is the
remaining suffix (prefix and suffix reassemble the corpus), `val_data` is
that suffix mapped through the training dataset's own `stoi`, and decoding a
successful mapping through the training vocabulary recovers the validation
text exactly — the indices are the training vocabulary's, not those of a
separately derived vocabulary. -/
theorem train_split_and_shared_vocab (data : List Char) :
    (main_train_dataset data).data = data.take (split_idx data.length) ∧
    main_val_split data = data.drop (split_idx data.length) ∧
    (main_train_dataset data).data ++ main_val_split data = data ∧
    main_val_data data =
      comprehension (main_train_dataset data).stoi (main_val_split data) ∧
    (∀ l, main_val_data data = some l →
      comprehension (main_train_dataset data).itos l = some (main_val_split data)) :=
  ⟨rfl, rfl, List.take_append_drop _ _, rfl,
    fun l h =>
      comprehension_inverse _ _ (fun a b => stoi_some_itos (main_train_dataset data) a b) _ l h⟩

/-- Witness for C7 on the corpus "abab": the split index is 2, training
split "ab", validation split "ab" maps to indices [0, 1], and decoding
[0, 1] through the training vocabulary gives back "ab". -/
theorem train_split_and_shared_vocab_witness :
    main_val_data ['a', 'b', 'a', 'b'] = some [0, 1] ∧
    comprehension (main_train_dataset ['a', 'b', 'a', 'b']).itos [0, 1] =
      some (main_val_split ['a', 'b', 'a', 'b']) := by
  have hv : main_val_data ['a', 'b', 'a', 'b'] = some [0, 1] := by decide
  exact ⟨hv, (train_split_and_shared_vocab ['a', 'b', 'a', 'b']).2.2.2.2 [0, 1] hv⟩

/-- C4: whenever `train` is invoked with a recognized model type, the
configuration's `vocab_size` and `block_size` are set from the dataset's
vocabulary size and block size before model construction; over a dataset with
non-empty text and positive context length both are positive; and the
constructed model (feedforward or gpt) received a configuration carrying
exactly the injected values. -/
theorem train_injects_dataset_sizes (config : Config) (ds : CharDataset)
    (hdata : ds.data ≠ []) (hblock : 0 < ds.block_size)
    (hty : config.model.model_type = "feedforward" ∨
      config.model.model_type.startsWith "gpt") :
    (train config ds).1.model.vocab_size = some ds.get_vocab_size ∧
    (train config ds).1.model.block_size = some ds.get_block_size ∧
    0 < ds.get_vocab_size ∧ 0 < ds.get_block_size ∧
    ∃ m, (train config ds).2 = some m ∧
      m.cfgVocabSize = some ds.get_vocab_size ∧
      m.cfgBlockSize = some ds.get_block_size := by
  have hvs : 0 < ds.get_vocab_size := by
    rw [CharDataset.get_vocab_size, CharDataset.vocab, List.length_insertionSort]
    have hded : ds.data.dedup ≠ [] := fun hnil => hdata ((List.dedup_eq_nil ds.data).mp hnil)
    exact List.length_pos.mpr hded
  by_cases hff : config.model.model_type = "feedforward"
  · have htr : (train config ds).2 =
        some (ModelObj.feedforward
          { config.model with
              vocab_size := some ds.get_vocab_size
              block_size := some ds.get_block_size }) := by
      simp [train, hff]
    refine ⟨by simp [train, hff], by simp [train, hff], hvs, hblock,
      ⟨_, htr, by simp [ModelObj.cfgVocabSize], by simp [ModelObj.cfgBlockSize]⟩⟩
  · have hgpt : config.model.model_type.startsWith "gpt" := hty.resolve_left hff
    have htr : (train config ds).2 =
        some (ModelObj.gpt
          { config with
              model :=
                { config.model with
                    vocab_size := some ds.get_vocab_size
                    block_size := some ds.get_block_size }
              vocab_size := some ds.get_vocab_size
              block_size := some ds.get_block_size }) := by
      simp [train, hff, hgpt]
    refine ⟨by simp [train, hff, hgpt], by simp [train, hff, hgpt], hvs, hblock,
      ⟨_, htr, by simp [ModelObj.cfgVocabSize], by simp [ModelObj.cfgBlockSize]⟩⟩

/-- Witness for C4 with the feedforward default profile and a dataset over
the text "ab" with context length 10. -/
theorem train_injects_dataset_sizes_witness :
    (⟨10, ['a', 'b']⟩ : CharDataset).data ≠ [] ∧
    0 < (⟨10, ['a', 'b']⟩ : CharDataset).block_size ∧
    ((train get_ff_config ⟨10, ['a', 'b']⟩).1.model.vocab_size =
        some (⟨10, ['a', 'b']⟩ : CharDataset).get_vocab_size ∧
      (train get_ff_config ⟨10, ['a', 'b']⟩).1.model.block_size =
        some (⟨10, ['a', 'b']⟩ : CharDataset).get_block_size ∧
      0 < (⟨10, ['a', 'b']⟩ : CharDataset).get_vocab_size ∧
      0 < (⟨10, ['a', 'b']⟩ : CharDataset).get_block_size ∧
      ∃ m, (train get_ff_config ⟨10, ['a', 'b']⟩).2 = some m ∧
        m.cfgVocabSize = some (⟨10, ['a', 'b']⟩ : CharDataset).get_vocab_size ∧
        m.cfgBlockSize = some (⟨10, ['a', 'b']⟩ : CharDataset).get_block_size) :=
  ⟨by simp, by decide,
    train_injects_dataset_sizes get_ff_config ⟨10, ['a', 'b']⟩ (by simp) (by decide)
      (Or.inl rfl)⟩

/-- `torch_argmax` returns the first index attaining the maximum, paired
with that maximal score. -/
lemma torch_argmax_spec (scores : List ℚ) (h : scores ≠ []) :
    ∃ (j : Nat) (hj : j < scores.length),
      torch_argmax scores = some (j, scores[j]) ∧
      (∀ k (hk : k < scores.length), scores[k] ≤ scores[j]) ∧
      (∀ k (hk : k < scores.length), k < j → scores[k] < scores[j]) := by
  induction scores with
  | nil => exact absurd rfl h
  | cons x xs ih =>
    by_cases hxs : xs = []
    · subst hxs
      refine ⟨0, by simp, by simp [torch_argmax], ?_, ?_⟩
      · intro k hk
        have hk0 : k = 0 := by simpa using hk
        subst hk0
        simp
      · intro k hk hkj
        omega
    · obtain ⟨j, hj, hfm, hmax, hstrict⟩ := ih hxs
      by_cases hlt : xs[j] > x
      · have hj1 : j + 1 < (x :: xs).length := by simp [List.length_cons]; omega
        refine ⟨j + 1, hj1, ?_, ?_, ?_⟩
        · simp only [torch_argmax, hfm, hlt, if_true, List.getElem_cons_succ]
        · intro k hk
          cases k with
          | zero => simpa using le_of_lt hlt
          | succ k =>
            have hk' : k < xs.length := by simpa using hk
            simpa using hmax k hk'
        · intro k hk hkj
          cases k with
          | zero => simpa using hlt
          | succ k =>
            have hk' : k < xs.length := by simpa using hk
            simpa using hstrict k hk' (by omega)
      · refine ⟨0, by simp, ?_, ?_, ?_⟩
        · simp only [torch_argmax, hfm, hlt, if_false, List.getElem_cons_zero]
        · intro k hk
          cases k with
          | zero => simp
          | succ k =>
            have hk' : k < xs.length := by simpa using hk
            have h1 : xs[j] ≤ x := not_lt.mp hlt
            simpa using le_trans (hmax k hk') h1
        · intro k hk hkj
          omega

/-- C9: for every non-empty model list, `pick_best` returns the model at the
smallest index whose score `model(inputs, targets, loss_fn)[1]` is maximal —
argmax selection with ties resolved to the first-seen model. -/
theorem pick_best_first_argmax {M I T L : Type} (forward : M → I → T → L → ℚ)
    (models : List M) (data : I × T) (loss_fn : L) (h : models ≠ []) :
    ∃ (j : Nat) (hj : j < models.length),
      pick_best forward models data loss_fn = some models[j] ∧
      (∀ k (hk : k < models.length),
        forward models[k] data.1 data.2 loss_fn ≤ forward models[j] data.1 data.2 loss_fn) ∧
      (∀ k (hk : k < models.length), k < j →
        forward models[k] data.1 data.2 loss_fn < forward models[j] data.1 data.2 loss_fn) := by
  have hs : (models.map fun model => forward model data.1 data.2 loss_fn) ≠ [] := by
    simpa using h
  obtain ⟨j, hj, hfm, hmax, hstrict⟩ := torch_argmax_spec _ hs
  have hjm : j < models.length := by simpa using hj
  refine ⟨j, hjm, ?_, ?_, ?_⟩
  · simp only [pick_best, hfm]
    rw [List.get?_eq_getElem?, List.getElem?_eq_getElem hjm]
  · intro k hk
    have hkm : k < (models.map fun model => forward model data.1 data.2 loss_fn).length := by
      simpa using hk
    simpa using hmax k hkm
  · intro k hk hkj
    have hkm : k < (models.map fun model => forward model data.1 data.2 loss_fn).length := by
      simpa using hk
    simpa using hstrict k hkm hkj

/-- Witness for C9 on scores `[1, 3, 3]` with a forward map returning the
model itself: the maximum 3 first occurs at index 1. -/
theorem pick_best_first_argmax_witness :
    ([(1 : ℚ), 3, 3] : List ℚ) ≠ [] ∧
    ∃ (j : Nat) (hj : j < ([(1 : ℚ), 3, 3] : List ℚ).length),
      pick_best (fun m _ _ _ => m) [(1 : ℚ), 3, 3] ((0 : ℚ), (0 : ℚ)) (0 : ℚ) =
        some (([(1 : ℚ), 3, 3] : List ℚ)[j]) ∧
      (∀ k (hk : k < ([(1 : ℚ), 3, 3] : List ℚ).length),
        ([(1 : ℚ), 3, 3] : List ℚ)[k] ≤ ([(1 : ℚ), 3, 3] : List ℚ)[j]) ∧
      (∀ k (hk : k < ([(1 : ℚ), 3, 3] : List ℚ).length), k < j →
        ([(1 : ℚ), 3, 3] : List ℚ)[k] < ([(1 : ℚ), 3, 3] : List ℚ)[j]) :=
  ⟨by simp,
    pick_best_first_argmax (fun m _ _ _ => m) [(1 : ℚ), 3, 3] ((0 : ℚ), (0 : ℚ)) (0 : ℚ)
      (by simp)⟩

end TinyLM
